import Mathlib

/-!
Verification of the deusfinance/notifier-client pagination and delivery
pipeline.  The definitions below are a shallow embedding of
`src/notifier_client/web_app_notifier_client.py` (class `SendNotification`
and the `Message` dataclass) and of `utils.py` (the threshold gate, alert
deduplication and fallback send loop).  Message text is modelled as
`List Char`; Python `str(amend)` is modelled by `reprAmend`.
-/

namespace Notifier

/-- Embeds the Python optional `amend` dict: `none` is Python `None`, and
`some s` stands for a dict whose `str()` rendering is `s`. -/
def reprAmend : Option String → String
  | none => "None"
  | some s => s

/-- Embeds the `Message` dataclass of `web_app_notifier_client.py`:
a page number, the page body, the emergency text (default empty) and the
optional amend payload (default `None`). -/
structure Message where
  page : Nat
  content : List Char
  emergency : String := ""
  amend : Option String := none
deriving DecidableEq, Repr

/-- Embeds `Message.message`: renders the page body followed by the
emergency line (when the emergency text is nonempty) and the page marker. -/
def Message.message (m : Message) : List Char :=
  if m.emergency.length == 0 then
    m.content ++ ("\n#" ++ toString m.page ++ "\n").toList
  else
    m.content ++ ("\nemergency_msg: " ++ m.emergency ++ "\n#" ++ toString m.page ++ "\n").toList

/-- Splits a list into consecutive chunks of `n` elements (the last chunk
may be shorter), mirroring `rest_of_message[i:i + self.max_msg_size]` for
`i in range(0, len(rest_of_message), self.max_msg_size)`.  The `n = 0`
case is unreachable in `splitMsg` (the guard has already ensured
`n ≥ len(mandatory_msg) > 0`, and Python `range` would reject step 0). -/
def chunksAux (n : Nat) : Nat → List Char → List (List Char)
  | 0, _ => []
  | _ + 1, [] => []
  | fuel + 1, a :: t =>
    if n = 0 then []
    else (a :: t).take n :: chunksAux n fuel ((a :: t).drop n)

def chunks (n : Nat) (l : List Char) : List (List Char) :=
  chunksAux n l.length l

/-- The mandatory metadata string reserved on page 1:
`f"\nemergency_msg: {emergency_msg}\namend: {amend}"`. -/
def mandatoryMsg (amend : Option String) (emergencyMsg : String) : List Char :=
  ("\nemergency_msg: " ++ emergencyMsg ++ "\namend: " ++ reprAmend amend).toList

/-- Embeds `SendNotification.__split_msg`.  Fails (`.error`, modelling the
raised `Exception("Max size is to low")`) when the reserved metadata does
not fit in `maxMsgSize`; otherwise page 1 takes the first
`maxMsgSize - reserved` characters together with the emergency text and
amend payload, and the remainder is chunked into `maxMsgSize`-sized pages
numbered from 2. -/
def splitMsg (maxMsgSize : Nat) (message : List Char) (amend : Option String)
    (emergencyMsg : String) : Except String (List Message) :=
  let mandatory := mandatoryMsg amend emergencyMsg
  if maxMsgSize < mandatory.length then
    .error "Max size is to low"
  else
    let firstSize := maxMsgSize - mandatory.length
    .ok (⟨1, message.take firstSize, emergencyMsg, amend⟩ ::
      (chunks maxMsgSize (message.drop firstSize)).enum.map
        (fun p => ⟨p.1 + 2, p.2, "", none⟩))

/-- Embeds the value space `Union[int, Tuple[int, bool]]` returned by the
send functions: a bare HTTP status code, or a pair of status code and
queued flag for threshold sends. -/
inductive Res
  | int (n : Int)
  | tup (n : Int) (b : Bool)
deriving DecidableEq, Repr

/-- Embeds `SendNotification.__check_status`.  In the source the first
branch tests `type(result) == Tuple`, comparing the runtime class `tuple`
with `typing.Tuple`; that comparison is never true in Python, so the
branch is dead and a tuple result falls through to `result == 200`, which
is false for every tuple.  Hence a tuple outcome is never accepted. -/
def checkStatus : Res → Bool
  | .int n => n == 200
  | .tup _ _ => false

/-- One call of the Python `send_func` is modelled by an oracle indexed by
the global invocation count: `.error ()` stands for the call raising an
exception, `.ok r` for it returning `r`. -/
abbrev SendOracle := Nat → Except Unit Res

/-- How handling of one page ends in `__send_message_pagination`:
the inner retry loop broke with an accepted outcome, exhausted its
`retrying_number` attempts, or was aborted by a raised exception. -/
inductive PageEnd
  | accepted
  | exhausted
  | raised
deriving DecidableEq, Repr

deriving instance DecidableEq for Except

/-- Observable events of a pagination run: one invocation of `send_func`
on a page (with its outcome), or one escalation of a page to
`__send_emergency_message`. -/
inductive Ev
  | prim (page : Nat) (out : Except Unit Res)
  | fall (page : Nat)
deriving DecidableEq, Repr

/-- Embeds the inner `for _ in range(self.retiring_number)` loop of
`__send_message_pagination` together with the surrounding `try`:
each iteration calls `send_func`; a raised exception ends the loop at
once (caught by the `except` handler, leaving `res` unchanged); an
accepted result breaks the loop; otherwise `res` is updated and the loop
continues.  Returns the loop end state, the final `res`, the next global
call index, and the trace of calls made. -/
def runPage (oracle : SendOracle) (pg : Nat) (k : Nat) (fuel : Nat) (res : Res) :
    PageEnd × Res × Nat × List Ev :=
  match fuel with
  | 0 => (.exhausted, res, k, [])
  | fuel' + 1 =>
    match oracle k with
    | .error () => (.raised, res, k + 1, [.prim pg (.error ())])
    | .ok r =>
      if checkStatus r then (.accepted, r, k + 1, [.prim pg (.ok r)])
      else
        let rest := runPage oracle pg (k + 1) fuel' r
        (rest.1, rest.2.1, rest.2.2.1, .prim pg (.ok r) :: rest.2.2.2)

/-- Embeds the outer `for msg in msg_list` loop of
`__send_message_pagination`: each page runs its retry loop; when the loop
did not break with an accepted outcome (exhaustion or exception) the page
is escalated to `__send_emergency_message` (a `.fall` event) before the
next page is processed. -/
def runPages (oracle : SendOracle) (retry : Nat) :
    List Message → Nat → Res → Res × Nat × List Ev
  | [], k, res => (res, k, [])
  | m :: ms, k, res =>
    let p := runPage oracle m.page k retry res
    let rest := runPages oracle retry ms p.2.2.1 p.2.1
    (rest.1, rest.2.1,
      p.2.2.2 ++ (if p.1 = PageEnd.accepted then [] else [Ev.fall m.page]) ++ rest.2.2)

/-- Embeds `SendNotification.__send_message_pagination`: split the
message (an `.error` models the propagated `Exception("Max size is to
low")`, raised before any send), then run the page loop starting from
`res = 0`; returns the final `res` and the event trace. -/
def sendMessagePagination (oracle : SendOracle) (retry : Nat) (maxMsgSize : Nat)
    (message : List Char) (amend : Option String) (emergencyMsg : String) :
    Except String Res × List Ev :=
  match splitMsg maxMsgSize message amend emergencyMsg with
  | .error e => (.error e, [])
  | .ok pages =>
    let r := runPages oracle retry pages 0 (.int 0)
    (.ok r.1, r.2.2)

/-- Number of primary-channel invocations recorded in a trace. -/
def primCount : List Ev → Nat
  | [] => 0
  | .prim _ _ :: t => primCount t + 1
  | .fall _ :: t => primCount t

/-- Pages escalated to the fallback channel, in trace order. -/
def fallsOf : List Ev → List Nat
  | [] => []
  | .prim _ _ :: t => fallsOf t
  | .fall p :: t => p :: fallsOf t

/-- The result of the last send invocation that completed without
raising, defaulting to `res` when no invocation completed. -/
def lastOkFrom (res : Res) (t : List Ev) : Res :=
  t.foldl (fun acc e => match e with | .prim _ (.ok r) => r | _ => acc) res

/-- Per-page loop end states of a pagination run, paired with the page
number, in page order (an observation of the same run as `runPages`). -/
def pageEnds (oracle : SendOracle) (retry : Nat) :
    List Message → Nat → Res → List (Nat × PageEnd)
  | [], _, _ => []
  | m :: ms, k, res =>
    let p := runPage oracle m.page k retry res
    (m.page, p.1) :: pageEnds oracle retry ms p.2.2.1 p.2.1

/-- A concrete send oracle whose first call fails with status 500 and
whose later calls return 200; used to show a final 200 result does not
mean every page was accepted. -/
def oracleEx : SendOracle :=
  fun k => if k = 0 then Except.ok (Res.int 500) else Except.ok (Res.int 200)

/-- Embeds the break condition `requests.post(...).status_code == '200'`
of `utils.send_message`: in Python an `int` never equals a `str`, so the
comparison is false for every status code and the loop never breaks. -/
def intEqStr200 (_ : Int) : Bool := false

/-- The text posted to the fallback chat-bot API by both fallback send
loops: `f"message: {message} amend: {amend}"`. -/
def fallbackText (message : List Char) (amendRepr : String) : List Char :=
  "message: ".toList ++ message ++ " amend: ".toList ++ amendRepr.toList

/-- The retry loop shared by `utils.send_message` and
`SendNotification.__send_emergency_message`: posts `text` up to the given
number of times, breaking after a post whose status code satisfies
`shouldStop`.  `statusOracle i` is the status code returned by the `i`-th
post; the returned list is the sequence of posted texts.  Exhaustion is
silent: the loop just ends. -/
def postLoop (shouldStop : Int → Bool) (statusOracle : Nat → Int) (text : List Char) :
    Nat → Nat → List (List Char)
  | 0, _ => []
  | n + 1, i =>
    if shouldStop (statusOracle i) then [text]
    else text :: postLoop shouldStop statusOracle text n (i + 1)

/-- Embeds `utils.send_message`: posts `f"message: {message} amend: {amend}"`
with the break condition comparing the integer status code to the string
`'200'`. -/
def sendMessageUtil (statusOracle : Nat → Int) (message : List Char)
    (amendRepr : String) (retrying : Nat) : List (List Char) :=
  postLoop intEqStr200 statusOracle (fallbackText message amendRepr) retrying 0

/-- Embeds `SendNotification.__send_emergency_message`: same loop, but the
break condition compares the status code to the integer 200. -/
def sendEmergencyMessage (statusOracle : Nat → Int) (message : List Char)
    (amendRepr : String) (retrying : Nat) : List (List Char) :=
  postLoop (fun s => s == 200) statusOracle (fallbackText message amendRepr) retrying 0

/-- Values stored in the modelled Redis servers: integers (counters; the
marker value `'true'` and other strings are `.str`), and a record value
standing for the JSON document
`{"sending_threshold_number": n, "sending_threshold_time": t}` written by
`set_threshold_setting` and parsed back by `get_threshold_setting`. -/
inductive RVal
  | int (n : Int)
  | str (s : String)
  | setting (number timeWindow : Nat)
deriving DecidableEq, Repr

/-- A modelled Redis server: entries of key, value and optional absolute
expiry time.  Writing a key first removes any previous entry for it, so
keys stay unique; expired entries are treated as absent by every read. -/
structure Redis where
  entries : List (String × RVal × Option Nat)
deriving DecidableEq, Repr

/-- An entry with expiry time `t` is live at `now` when `now < t`;
entries without expiry never expire. -/
def entryLive (now : Nat) : Option Nat → Bool
  | none => true
  | some t => now < t

def Redis.getEntry (r : Redis) (now : Nat) (k : String) : Option (RVal × Option Nat) :=
  match r.entries.find? (fun e => e.1 == k) with
  | some e => if entryLive now e.2.2 then some e.2 else none
  | none => none

/-- `GET key` (`None` when absent or expired). -/
def Redis.get (r : Redis) (now : Nat) (k : String) : Option RVal :=
  (r.getEntry now k).map Prod.fst

def Redis.removeKey (r : Redis) (k : String) : Redis :=
  ⟨r.entries.filter (fun e => e.1 != k)⟩

/-- `SET key value` without expiry: persists and clears any TTL. -/
def Redis.set (r : Redis) (k : String) (v : RVal) : Redis :=
  ⟨(k, v, none) :: (r.removeKey k).entries⟩

/-- `SET key value EX ex`: the entry expires at `now + ex`. -/
def Redis.setEx (r : Redis) (now : Nat) (k : String) (v : RVal) (ex : Nat) : Redis :=
  ⟨(k, v, some (now + ex)) :: (r.removeKey k).entries⟩

/-- `INCR key`: increments a live integer entry keeping its TTL; a
missing or expired key is created at 1 with no TTL.  (A live non-integer
value cannot arise for the counter keys used here and is treated like a
fresh key.)  Returns the new store and the incremented value. -/
def Redis.incr (r : Redis) (now : Nat) (k : String) : Redis × Int :=
  match r.getEntry now k with
  | some (.int v, t) => (⟨(k, .int (v + 1), t) :: (r.removeKey k).entries⟩, v + 1)
  | some (_, _) => (⟨(k, .int 1, none) :: (r.removeKey k).entries⟩, 1)
  | none => (⟨(k, .int 1, none) :: (r.removeKey k).entries⟩, 1)

/-- Whether the first list is an initial segment of the second. -/
def listStarts : List Char → List Char → Bool
  | [], _ => true
  | _ :: _, [] => false
  | a :: as, b :: bs => a == b && listStarts as bs

/-- Whether the string `s` starts with `p`. -/
def strStarts (s p : String) : Bool := listStarts p.toList s.toList

/-- `KEYS p*`: the keys of live entries whose name starts with `p`. -/
def Redis.keysMatching (r : Redis) (now : Nat) (p : String) : List String :=
  (r.entries.filter (fun e => strStarts e.1 p && entryLive now e.2.2)).map (fun e => e.1)

/-- `DELETE k₁ ... kₙ`. -/
def Redis.deleteKeys (r : Redis) (ks : List String) : Redis :=
  ⟨r.entries.filter (fun e => !(ks.contains e.1))⟩

/-- Embeds `utils.get_threshold_setting`: reads the setting stored under
`sha256(f'{message}_setting')` from the threshold store (server 2);
`hash` models `hashlib.sha256(...).hexdigest()`. -/
def getThresholdSetting (hash : String → String) (now : Nat) (store2 : Redis)
    (message : String) : Option (Nat × Nat) :=
  match store2.get now (hash (message ++ "_setting")) with
  | some (.setting n t) => some (n, t)
  | _ => none

/-- Embeds `utils.set_threshold_setting`: stores the setting document
under `sha256(f'{message}_setting')` with no expiry. -/
def setThresholdSettingUtil (hash : String → String) (store2 : Redis)
    (message : String) (number timeWindow : Nat) : Redis :=
  store2.set (hash (message ++ "_setting")) (.setting number timeWindow)

/-- The content-derived key `sha256(f'{message}_{receiver_id}')` shared
by `set_message_data` and `check_condition_send_message`. -/
def msgAlertKey (hash : String → String) (message : String) (receiverId : Int) : String :=
  hash (message ++ "_" ++ toString receiverId)

/-- Embeds `utils.set_message_data`: writes one fresh expiring counter
entry `f'{alert_key}-{unique_id}'` (value 1, expiry the configured
threshold time) to the threshold store (server 2); `uniqueId` models
`str(uuid.uuid4())`.  Returns `none` when no setting is configured,
modelling the `TypeError` the source raises on
`setting['sending_threshold_time']` with `setting = None`. -/
def setMessageData (hash : String → String) (now : Nat) (store2 : Redis)
    (message : String) (receiverId : Int) (uniqueId : String) : Option Redis :=
  let alertKey := msgAlertKey hash message receiverId
  match getThresholdSetting hash now store2 message with
  | none => none
  | some (_, t) => some (store2.setEx now (alertKey ++ "-" ++ uniqueId) (.int 1) t)

/-- Embeds `utils.check_condition_send_message`: lists the live counter
keys under the content-derived prefix in server 1 and reads the setting
from server 2.  Unconfigured: forward the message and return true.
Configured: when the live key count reaches the threshold, append the
count to the text, forward, delete the counted keys and return true;
otherwise return false without forwarding.  The `Option String` component
is the text passed to `send_message` (`none` when suppressed). -/
def checkConditionSendMessage (hash : String → String) (now : Nat)
    (store1 store2 : Redis) (message : String) (receiverId : Int) :
    Bool × Redis × Option String :=
  let alertKey := msgAlertKey hash message receiverId
  let keys := store1.keysMatching now (alertKey ++ "-")
  match getThresholdSetting hash now store2 message with
  | none => (true, store1, some message)
  | some (n, _) =>
    if n ≤ keys.length then
      (true, store1.deleteKeys keys,
        some (message ++ "\n count: " ++ toString keys.length))
    else (false, store1, none)

/-- The alert key `f'{sha256(text)}-{receiver_id}'` of `utils.send_alert`. -/
def alertKeyOf (hash : String → String) (text : String) (receiverId : Int) : String :=
  hash text ++ "-" ++ toString receiverId

/-- Embeds `utils.send_alert`: increments the counter under
`f'{sha256(text)}-{receiver_id}'`; when no `-expire` marker is live,
forwards the text with the incremented count appended, sets the marker
with expiry `alert_delay` and resets the counter to 0 (the marker value
`'true'` is stored as a string); when the marker is live, suppresses
(forwards nothing).  The `Option String` component is the text passed to
`send_message`. -/
def sendAlertUtil (hash : String → String) (now : Nat) (alertDelay : Nat)
    (store1 : Redis) (text : String) (receiverId : Int) : Redis × Option String :=
  let alertKey := alertKeyOf hash text receiverId
  let p := store1.incr now alertKey
  if (p.1.get now (alertKey ++ "-expire")).isNone then
    ((p.1.setEx now (alertKey ++ "-expire") (.str "true") alertDelay).set
        alertKey (.int 0),
      some (text ++ "\n count: " ++ toString p.2))
  else (p.1, none)

/-- A threshold store holding a setting with `count_limit = 1` and
window 10 for message "m" (under the identity stand-in for the hash). -/
def c8OneStore : Redis := ⟨[("m_setting", RVal.setting 1 10, none)]⟩

/-- A threshold store holding a setting with `count_limit = 2` and
window 10 for message "m". -/
def c8SettingStore : Redis := ⟨[("m_setting", RVal.setting 2 10, none)]⟩

/-- A counter store holding two live counter entries for the key prefix
`m_7-` (expiring at time 5). -/
def c8Store1 : Redis :=
  ⟨[("m_7-u1", RVal.int 1, some 5), ("m_7-u2", RVal.int 1, some 5)]⟩

theorem chunksAux_congr (n : Nat) :
    ∀ (fuel fuel' : Nat) (l : List Char), l.length ≤ fuel → l.length ≤ fuel' →
      chunksAux n fuel l = chunksAux n fuel' l := by
  intro fuel
  induction fuel with
  | zero =>
    intro fuel' l hl _
    have h0 : l = [] := List.eq_nil_of_length_eq_zero (Nat.le_zero.mp hl)
    subst h0
    cases fuel' <;> rfl
  | succ f ih =>
    intro fuel' l hl hl'
    cases l with
    | nil => cases fuel' <;> rfl
    | cons a t =>
      cases fuel' with
      | zero => simp at hl'
      | succ f' =>
        by_cases hn : n = 0
        · simp [chunksAux, hn]
        · simp only [chunksAux, hn, if_false, ite_false]
          congr 1
          apply ih
          · simp only [List.length_drop, List.length_cons] at *
            omega
          · simp only [List.length_drop, List.length_cons] at *
            omega

theorem chunks_eq (n : Nat) (l : List Char) :
    chunks n l =
      if l = [] then []
      else if n = 0 then []
      else l.take n :: chunks n (l.drop n) := by
  cases l with
  | nil => rfl
  | cons a t =>
    by_cases hn : n = 0
    · simp [chunks, chunksAux, hn]
    · simp only [chunks, List.length_cons, chunksAux, hn, if_false, ite_false,
        reduceCtorEq, List.cons.injEq]
      refine ⟨trivial, ?_⟩
      apply chunksAux_congr
      · simp only [List.length_drop, List.length_cons]
        omega
      · exact le_rfl

theorem chunks_bounded_join (n : Nat) (hn : n ≠ 0) :
    ∀ (len : Nat) (l : List Char), l.length ≤ len →
      (chunks n l).flatten = l ∧ ∀ c ∈ chunks n l, c.length ≤ n := by
  intro len
  induction len with
  | zero =>
    intro l hl
    have h0 : l = [] := List.eq_nil_of_length_eq_zero (Nat.le_zero.mp hl)
    subst h0
    simp [chunks_eq]
  | succ m ih =>
    intro l hl
    rw [chunks_eq]
    by_cases h : l = []
    · simp [h]
    · have hpos : 0 < l.length := List.length_pos.mpr h
      have hdrop : (l.drop n).length ≤ m := by
        simp only [List.length_drop]
        omega
      obtain ⟨ihj, ihb⟩ := ih (l.drop n) hdrop
      refine ⟨?_, ?_⟩
      · simp [h, hn, ihj]
      · intro c hc
        simp only [h, hn, if_false, ite_false] at hc
        rcases List.mem_cons.mp hc with rfl | hc'
        · simpa using List.length_take_le n l
        · exact ihb c hc'

theorem chunks_flatten (n : Nat) (hn : n ≠ 0) (l : List Char) :
    (chunks n l).flatten = l :=
  (chunks_bounded_join n hn l.length l le_rfl).1

theorem chunks_mem_length (n : Nat) (hn : n ≠ 0) (l : List Char) (c : List Char)
    (hc : c ∈ chunks n l) : c.length ≤ n :=
  (chunks_bounded_join n hn l.length l le_rfl).2 c hc

theorem mandatoryMsg_length (amend : Option String) (emergencyMsg : String) :
    (mandatoryMsg amend emergencyMsg).length =
      24 + emergencyMsg.length + (reprAmend amend).length := by
  simp [mandatoryMsg, String.length_append]
  omega

/-- C1: when the reserved metadata fits in `max_page_size`, `__split_msg`
produces pages whose bodies concatenate back to the original message, none
of which exceeds `max_page_size`; page indices are consecutive from 1, and
only page 1 carries the emergency text and amend payload. -/
theorem splitMsg_correct (maxMsgSize : Nat) (message : List Char)
    (amend : Option String) (emergencyMsg : String)
    (h : (mandatoryMsg amend emergencyMsg).length ≤ maxMsgSize) :
    ∃ pages : List Message,
      splitMsg maxMsgSize message amend emergencyMsg = .ok pages ∧
      (pages.map Message.content).flatten = message ∧
      (∀ m ∈ pages, m.content.length ≤ maxMsgSize) ∧
      (∀ (i : Nat) (hi : i < pages.length), (pages.get ⟨i, hi⟩).page = i + 1) ∧
      pages.head? = some ⟨1,
        message.take (maxMsgSize - (mandatoryMsg amend emergencyMsg).length),
        emergencyMsg, amend⟩ ∧
      (∀ m ∈ pages.tail, m.emergency = "" ∧ m.amend = none) := by
  have hn : maxMsgSize ≠ 0 := by
    have := mandatoryMsg_length amend emergencyMsg
    omega
  refine ⟨Message.mk 1
      (message.take (maxMsgSize - (mandatoryMsg amend emergencyMsg).length))
      emergencyMsg amend ::
    (chunks maxMsgSize (message.drop (maxMsgSize -
        (mandatoryMsg amend emergencyMsg).length))).enum.map
      (fun p => Message.mk (p.1 + 2) p.2 "" none), ?_, ?_, ?_, ?_, ?_, ?_⟩
  · rw [splitMsg]
    simp [Nat.not_lt.mpr h]
  · simp only [List.map_cons, List.map_map, List.flatten_cons]
    have hsnd : ((chunks maxMsgSize (message.drop (maxMsgSize -
        (mandatoryMsg amend emergencyMsg).length))).enum.map
        (Message.content ∘ fun p => Message.mk (p.1 + 2) p.2 "" none)) =
        chunks maxMsgSize (message.drop (maxMsgSize -
          (mandatoryMsg amend emergencyMsg).length)) := by
      have hcomp : (Message.content ∘ fun p : Nat × List Char =>
          Message.mk (p.1 + 2) p.2 "" none) = Prod.snd := rfl
      rw [hcomp, List.enum_map_snd]
    rw [hsnd, chunks_flatten maxMsgSize hn, List.take_append_drop]
  · intro m hm
    rcases List.mem_cons.mp hm with rfl | hm'
    · calc (message.take (maxMsgSize - (mandatoryMsg amend emergencyMsg).length)).length
          ≤ maxMsgSize - (mandatoryMsg amend emergencyMsg).length :=
            List.length_take_le _ _
        _ ≤ maxMsgSize := Nat.sub_le _ _
    · rcases List.mem_map.mp hm' with ⟨p, hp, rfl⟩
      have hmem : p.2 ∈ chunks maxMsgSize (message.drop (maxMsgSize -
          (mandatoryMsg amend emergencyMsg).length)) := by
        have hmap := List.mem_map_of_mem Prod.snd hp
        rwa [List.enum_map_snd] at hmap
      exact chunks_mem_length maxMsgSize hn _ _ hmem
  · intro i hi
    rw [List.get_eq_getElem]
    rcases i with _ | j
    · rfl
    · rw [List.getElem_cons_succ, List.getElem_map, List.getElem_enum]
  · rfl
  · intro m hm
    rcases List.mem_map.mp hm with ⟨p, _, rfl⟩
    exact ⟨rfl, rfl⟩

theorem lastOkFrom_append (res : Res) (t1 t2 : List Ev) :
    lastOkFrom res (t1 ++ t2) = lastOkFrom (lastOkFrom res t1) t2 := by
  simp [lastOkFrom, List.foldl_append]

theorem primCount_append (t1 t2 : List Ev) :
    primCount (t1 ++ t2) = primCount t1 + primCount t2 := by
  induction t1 with
  | nil => simp [primCount]
  | cons e t ih => cases e <;> simp [primCount, ih] <;> omega

theorem fallsOf_append (t1 t2 : List Ev) :
    fallsOf (t1 ++ t2) = fallsOf t1 ++ fallsOf t2 := by
  induction t1 with
  | nil => simp [fallsOf]
  | cons e t ih => cases e <;> simp [fallsOf, ih]

theorem runPage_res_eq_lastOkFrom (oracle : SendOracle) (pg : Nat) :
    ∀ (fuel k : Nat) (res : Res),
      (runPage oracle pg k fuel res).2.1 =
        lastOkFrom res (runPage oracle pg k fuel res).2.2.2 := by
  intro fuel
  induction fuel with
  | zero => intro k res; simp [runPage, lastOkFrom]
  | succ fuel' ih =>
    intro k res
    rw [runPage]
    cases hk : oracle k with
    | error u => cases u; simp [lastOkFrom]
    | ok r =>
      by_cases hcs : checkStatus r
      · simp [hcs, lastOkFrom]
      · simp only [hcs, if_false, ite_false, lastOkFrom, List.foldl_cons]
        exact ih (k + 1) r

theorem runPage_calls (oracle : SendOracle) (pg : Nat) :
    ∀ (fuel k : Nat) (res : Res),
      (runPage oracle pg k fuel res).2.2.1 =
        k + primCount (runPage oracle pg k fuel res).2.2.2 ∧
      primCount (runPage oracle pg k fuel res).2.2.2 ≤ fuel := by
  intro fuel
  induction fuel with
  | zero => intro k res; simp [runPage, primCount]
  | succ fuel' ih =>
    intro k res
    rw [runPage]
    cases hk : oracle k with
    | error u => cases u; simp [primCount]
    | ok r =>
      by_cases hcs : checkStatus r
      · simp [hcs, primCount]
      · obtain ⟨ih1, ih2⟩ := ih (k + 1) r
        simp only [hcs, Bool.false_eq_true, if_false, ite_false, primCount]
        exact ⟨by omega, by omega⟩

theorem runPage_no_falls (oracle : SendOracle) (pg : Nat) :
    ∀ (fuel k : Nat) (res : Res),
      fallsOf (runPage oracle pg k fuel res).2.2.2 = [] := by
  intro fuel
  induction fuel with
  | zero => intro k res; simp [runPage, fallsOf]
  | succ fuel' ih =>
    intro k res
    rw [runPage]
    cases hk : oracle k with
    | error u => cases u; simp [fallsOf]
    | ok r =>
      by_cases hcs : checkStatus r
      · simp [hcs, fallsOf]
      · simp only [hcs, if_false, ite_false, fallsOf, List.filterMap_cons]
        exact ih (k + 1) r

theorem runPages_res_eq_lastOkFrom (oracle : SendOracle) (retry : Nat) :
    ∀ (pages : List Message) (k : Nat) (res : Res),
      (runPages oracle retry pages k res).1 =
        lastOkFrom res (runPages oracle retry pages k res).2.2 := by
  intro pages
  induction pages with
  | nil => intro k res; simp [runPages, lastOkFrom]
  | cons m ms ih =>
    intro k res
    rw [runPages]
    simp only [lastOkFrom_append]
    rw [ih]
    have hfall : ∀ x : Res,
        lastOkFrom x (if (runPage oracle m.page k retry res).1 = PageEnd.accepted
          then [] else [Ev.fall m.page]) = x := by
      intro x
      by_cases hp : (runPage oracle m.page k retry res).1 = PageEnd.accepted <;>
        simp [hp, lastOkFrom]
    rw [hfall, ← runPage_res_eq_lastOkFrom]

theorem runPages_all_raise (oracle : SendOracle) (retry : Nat)
    (h : ∀ j, oracle j = Except.error ()) :
    ∀ (pages : List Message) (k : Nat) (res : Res),
      (runPages oracle retry pages k res).1 = res := by
  intro pages
  induction pages with
  | nil => intro k res; simp [runPages]
  | cons m ms ih =>
    intro k res
    rw [runPages]
    have hres : (runPage oracle m.page k retry res).2.1 = res := by
      cases retry with
      | zero => simp [runPage]
      | succ fuel' => rw [runPage, h k]
    simp only []
    rw [ih, hres]

theorem pageEnds_map_fst (oracle : SendOracle) (retry : Nat) :
    ∀ (pages : List Message) (k : Nat) (res : Res),
      (pageEnds oracle retry pages k res).map Prod.fst = pages.map Message.page := by
  intro pages
  induction pages with
  | nil => intro k res; simp [pageEnds]
  | cons m ms ih => intro k res; rw [pageEnds]; simp [ih]

theorem runPage_never_accepted (oracle : SendOracle) (pg : Nat)
    (h : ∀ j, ∃ r, oracle j = Except.ok r ∧ checkStatus r = false) :
    ∀ (fuel k : Nat) (res : Res),
      (runPage oracle pg k fuel res).1 = PageEnd.exhausted ∧
      primCount (runPage oracle pg k fuel res).2.2.2 = fuel := by
  intro fuel
  induction fuel with
  | zero => intro k res; simp [runPage, primCount]
  | succ fuel' ih =>
    intro k res
    obtain ⟨r, hr, hcs⟩ := h k
    rw [runPage, hr]
    simp only [hcs, Bool.false_eq_true, if_false, ite_false, primCount]
    obtain ⟨ih1, ih2⟩ := ih (k + 1) r
    exact ⟨ih1, by omega⟩

theorem runPage_first_accepted (oracle : SendOracle) (pg : Nat) :
    ∀ (fuel k : Nat) (res : Res) (j : Nat) (rs : Nat → Res) (r : Res),
      j < fuel →
      (∀ i, i < j → oracle (k + i) = Except.ok (rs i) ∧ checkStatus (rs i) = false) →
      oracle (k + j) = Except.ok r → checkStatus r = true →
      (runPage oracle pg k fuel res).1 = PageEnd.accepted ∧
      primCount (runPage oracle pg k fuel res).2.2.2 = j + 1 ∧
      (runPage oracle pg k fuel res).2.1 = r := by
  intro fuel
  induction fuel with
  | zero => intro k res j rs r hj; omega
  | succ fuel' ih =>
    intro k res j rs r hj hpre hj' hcs
    cases j with
    | zero =>
      rw [Nat.add_zero] at hj'
      rw [runPage, hj']
      simp [hcs, primCount]
    | succ j' =>
      have h0 := hpre 0 (Nat.succ_pos j')
      rw [Nat.add_zero] at h0
      rw [runPage, h0.1]
      simp only [h0.2, Bool.false_eq_true, if_false, ite_false, primCount]
      have hrec := ih (k + 1) (rs 0) j' (fun i => rs (i + 1)) r
        (by omega)
        (by
          intro i hi
          have := hpre (i + 1) (by omega)
          rwa [show k + (i + 1) = k + 1 + i by omega] at this)
        (by rwa [show k + (j' + 1) = k + 1 + j' by omega] at hj')
        hcs
      exact ⟨hrec.1, by omega, hrec.2.2⟩

theorem runPage_first_raise (oracle : SendOracle) (pg : Nat) :
    ∀ (fuel k : Nat) (res : Res) (j : Nat) (rs : Nat → Res),
      j < fuel →
      (∀ i, i < j → oracle (k + i) = Except.ok (rs i) ∧ checkStatus (rs i) = false) →
      oracle (k + j) = Except.error () →
      (runPage oracle pg k fuel res).1 = PageEnd.raised ∧
      primCount (runPage oracle pg k fuel res).2.2.2 = j + 1 ∧
      (runPage oracle pg k fuel res).2.1 =
        (match j with | 0 => res | Nat.succ j' => rs j') := by
  intro fuel
  induction fuel with
  | zero => intro k res j rs hj; omega
  | succ fuel' ih =>
    intro k res j rs hj hpre hj'
    cases j with
    | zero =>
      rw [Nat.add_zero] at hj'
      rw [runPage, hj']
      simp [primCount]
    | succ j' =>
      have h0 := hpre 0 (Nat.succ_pos j')
      rw [Nat.add_zero] at h0
      rw [runPage, h0.1]
      simp only [h0.2, Bool.false_eq_true, if_false, ite_false, primCount]
      have hrec := ih (k + 1) (rs 0) j' (fun i => rs (i + 1))
        (by omega)
        (by
          intro i hi
          have := hpre (i + 1) (by omega)
          rwa [show k + (i + 1) = k + 1 + i by omega] at this)
        (by rwa [show k + (j' + 1) = k + 1 + j' by omega] at hj')
      refine ⟨hrec.1, by omega, ?_⟩
      rw [hrec.2.2]
      cases j' <;> rfl

theorem runPages_falls_eq (oracle : SendOracle) (retry : Nat) :
    ∀ (pages : List Message) (k : Nat) (res : Res),
      fallsOf (runPages oracle retry pages k res).2.2 =
        ((pageEnds oracle retry pages k res).filter
          fun pe => pe.2 != PageEnd.accepted).map Prod.fst := by
  intro pages
  induction pages with
  | nil => intro k res; simp [runPages, pageEnds, fallsOf]
  | cons m ms ih =>
    intro k res
    rw [runPages, pageEnds]
    simp only [fallsOf_append, runPage_no_falls, List.nil_append, List.filter_cons]
    by_cases hp : (runPage oracle m.page k retry res).1 = PageEnd.accepted
    · simp [hp, fallsOf, ih]
    · have hb : ((runPage oracle m.page k retry res).1 != PageEnd.accepted) = true := by
        simpa using hp
      simp [hp, hb, fallsOf, ih]

/-- C2: if the reserved metadata does not fit in `max_page_size`,
pagination fails with the configuration error ("Max size is to low")
before any send: the result is the propagated error and the event trace
is empty (no primary send is attempted, nothing is retried, and the
fallback channel is never invoked). -/
theorem pagination_config_error (oracle : SendOracle) (retry maxMsgSize : Nat)
    (message : List Char) (amend : Option String) (emergencyMsg : String)
    (h : maxMsgSize < (mandatoryMsg amend emergencyMsg).length) :
    sendMessagePagination oracle retry maxMsgSize message amend emergencyMsg =
      (Except.error "Max size is to low", []) := by
  rw [sendMessagePagination, splitMsg]
  simp [h]

/-- Closed witness instantiating `pagination_config_error`. -/
theorem pagination_config_error_witness :
    sendMessagePagination (fun _ => Except.ok (Res.int 200)) 5 0 "x".toList none "" =
      (Except.error "Max size is to low", []) :=
  pagination_config_error (fun _ => Except.ok (Res.int 200)) 5 0 "x".toList none ""
    (by decide)

/-- C4 (code bug): `__check_status` never accepts a tuple outcome.  The
source tests `type(result) == Tuple` against `typing.Tuple`, which is
always false in Python, so `(200, True)` falls through to `result == 200`
and is classified as not accepted, contradicting the documented
classification; bare integer outcomes are classified as the claim says. -/
theorem checkStatus_eval :
    checkStatus (Res.tup 200 true) = false ∧
    checkStatus (Res.tup 200 false) = false ∧
    checkStatus (Res.int 200) = true ∧
    checkStatus (Res.int 500) = false := by
  decide

/-- C5: per page, the dispatch loop invokes `send_func` at most
`retry_limit` times and stops at the first accepted outcome: a send
function returning the integer 200 on its first call is invoked exactly
once and the page is accepted; in general acceptance at attempt `j`
makes exactly `j + 1` invocations; a send function that never returns an
accepted outcome and never raises is invoked exactly `retry_limit` times
and the page ends not accepted. -/
theorem dispatch_retry_policy (oracle : SendOracle) (pg k fuel : Nat) (res : Res) :
    primCount (runPage oracle pg k fuel res).2.2.2 ≤ fuel ∧
    (oracle k = Except.ok (Res.int 200) → 1 ≤ fuel →
      runPage oracle pg k fuel res =
        (PageEnd.accepted, Res.int 200, k + 1, [Ev.prim pg (Except.ok (Res.int 200))])) ∧
    ((∀ j, ∃ r, oracle j = Except.ok r ∧ checkStatus r = false) →
      (runPage oracle pg k fuel res).1 = PageEnd.exhausted ∧
      primCount (runPage oracle pg k fuel res).2.2.2 = fuel) ∧
    (∀ (j : Nat) (rs : Nat → Res) (r : Res), j < fuel →
      (∀ i, i < j → oracle (k + i) = Except.ok (rs i) ∧ checkStatus (rs i) = false) →
      oracle (k + j) = Except.ok r → checkStatus r = true →
      (runPage oracle pg k fuel res).1 = PageEnd.accepted ∧
      primCount (runPage oracle pg k fuel res).2.2.2 = j + 1) := by
  refine ⟨(runPage_calls oracle pg fuel k res).2, ?_, ?_, ?_⟩
  · intro h200 hfuel
    cases fuel with
    | zero => omega
    | succ fuel' =>
      rw [runPage, h200]
      simp [checkStatus]
  · intro h
    exact runPage_never_accepted oracle pg h fuel k res
  · intro j rs r hj hpre hj' hcs
    have := runPage_first_accepted oracle pg fuel k res j rs r hj hpre hj' hcs
    exact ⟨this.1, this.2.1⟩

/-- Closed witness instantiating `dispatch_retry_policy`: a send function
returning 200 at once is called exactly once; a send function always
returning 500 is called exactly `retry_limit = 3` times; a send function
accepting on its third attempt is called exactly three times. -/
theorem dispatch_retry_policy_witness :
    runPage (fun _ => Except.ok (Res.int 200)) 1 0 3 (Res.int 0) =
      (PageEnd.accepted, Res.int 200, 1, [Ev.prim 1 (Except.ok (Res.int 200))]) ∧
    ((runPage (fun _ => Except.ok (Res.int 500)) 1 0 3 (Res.int 0)).1 = PageEnd.exhausted ∧
      primCount (runPage (fun _ => Except.ok (Res.int 500)) 1 0 3 (Res.int 0)).2.2.2 = 3) ∧
    ((runPage (fun j => if j < 2 then Except.ok (Res.int 500) else Except.ok (Res.int 200))
        1 0 3 (Res.int 0)).1 = PageEnd.accepted ∧
      primCount (runPage (fun j => if j < 2 then Except.ok (Res.int 500) else Except.ok (Res.int 200))
        1 0 3 (Res.int 0)).2.2.2 = 2 + 1) := by
  refine ⟨?_, ?_, ?_⟩
  · exact (dispatch_retry_policy (fun _ => Except.ok (Res.int 200)) 1 0 3 (Res.int 0)).2.1
      rfl (by omega)
  · exact (dispatch_retry_policy (fun _ => Except.ok (Res.int 500)) 1 0 3 (Res.int 0)).2.2.1
      (fun j => ⟨Res.int 500, rfl, by decide⟩)
  · exact (dispatch_retry_policy
      (fun j => if j < 2 then Except.ok (Res.int 500) else Except.ok (Res.int 200))
      1 0 3 (Res.int 0)).2.2.2 2 (fun _ => Res.int 500) (Res.int 200)
      (by omega) (by intro i hi; interval_cases i <;> exact ⟨rfl, by decide⟩)
      (by decide) (by decide)

/-- C3 counterexample: with a send function that raises on every call and
`retry_limit = 2`, the dispatch loop makes exactly one invocation — the
first raised exception aborts the page's retry loop — and not the two
invocations the claim's "counts it as one failed attempt and continues
with the remaining retries" requires. -/
theorem dispatch_exception_counterexample :
    (runPage (fun _ => Except.error ()) 1 0 2 (Res.int 0)).2.2.2 =
      [Ev.prim 1 (Except.error ())] ∧
    primCount (runPage (fun _ => Except.error ()) 1 0 2 (Res.int 0)).2.2.2 = 1 ∧
    primCount (runPage (fun _ => Except.error ()) 1 0 2 (Res.int 0)).2.2.2 ≠ 2 := by
  refine ⟨?_, ?_, ?_⟩ <;> decide

/-- C3 as amended: an exception raised by the `j`-th invocation of the
send function is caught, ends the page's retry loop immediately (exactly
`j + 1` invocations, the remaining retries are abandoned), leaves `res`
at the last completed outcome, never propagates (the run continues), and
the page is escalated to the fallback channel before the remaining pages
are processed. -/
theorem dispatch_exception_policy (oracle : SendOracle) :
    (∀ (pg fuel k : Nat) (res : Res) (j : Nat) (rs : Nat → Res),
      j < fuel →
      (∀ i, i < j → oracle (k + i) = Except.ok (rs i) ∧ checkStatus (rs i) = false) →
      oracle (k + j) = Except.error () →
      (runPage oracle pg k fuel res).1 = PageEnd.raised ∧
      primCount (runPage oracle pg k fuel res).2.2.2 = j + 1 ∧
      (runPage oracle pg k fuel res).2.1 =
        (match j with | 0 => res | Nat.succ j' => rs j')) ∧
    (∀ (retry : Nat) (m : Message) (ms : List Message) (k : Nat) (res : Res),
      (runPage oracle m.page k retry res).1 = PageEnd.raised →
      (runPages oracle retry (m :: ms) k res).2.2 =
        (runPage oracle m.page k retry res).2.2.2 ++
          Ev.fall m.page :: (runPages oracle retry ms
            (runPage oracle m.page k retry res).2.2.1
            (runPage oracle m.page k retry res).2.1).2.2) := by
  constructor
  · intro pg fuel k res j rs hj hpre hj'
    exact runPage_first_raise oracle pg fuel k res j rs hj hpre hj'
  · intro retry m ms k res hr
    rw [runPages]
    have hne : ¬(runPage oracle m.page k retry res).1 = PageEnd.accepted := by
      rw [hr]; intro hc; cases hc
    simp [hne]

/-- Closed witness instantiating `dispatch_exception_policy`: the first
call raises, the loop ends after that single call with `res` unchanged,
and the page is escalated before page 2 is handled. -/
theorem dispatch_exception_policy_witness :
    ((runPage (fun _ => Except.error ()) 1 0 3 (Res.int 0)).1 = PageEnd.raised ∧
      primCount (runPage (fun _ => Except.error ()) 1 0 3 (Res.int 0)).2.2.2 = 0 + 1 ∧
      (runPage (fun _ => Except.error ()) 1 0 3 (Res.int 0)).2.1 = Res.int 0) ∧
    (runPages (fun _ => Except.error ()) 3
        [⟨1, "a".toList, "", none⟩, ⟨2, "b".toList, "", none⟩] 0 (Res.int 0)).2.2 =
      (runPage (fun _ => Except.error ()) 1 0 3 (Res.int 0)).2.2.2 ++
        Ev.fall 1 :: (runPages (fun _ => Except.error ()) 3 [⟨2, "b".toList, "", none⟩]
          (runPage (fun _ => Except.error ()) 1 0 3 (Res.int 0)).2.2.1
          (runPage (fun _ => Except.error ()) 1 0 3 (Res.int 0)).2.1).2.2 := by
  constructor
  · exact (dispatch_exception_policy (fun _ => Except.error ())).1 1 3 0 (Res.int 0) 0
      (fun _ => Res.int 0) (by omega) (by intro i hi; omega) rfl
  · exact (dispatch_exception_policy (fun _ => Except.error ())).2 3
      ⟨1, "a".toList, "", none⟩ [⟨2, "b".toList, "", none⟩] 0 (Res.int 0) (by decide)

/-- C6: the fallback channel is invoked exactly for the pages whose
primary dispatch did not end accepted, in the original page order (the
escalated pages form a sublist of the page sequence); when every page is
accepted, no fallback invocation occurs. -/
theorem fallback_only_failed_pages (oracle : SendOracle) (retry : Nat)
    (pages : List Message) (k : Nat) (res : Res) :
    fallsOf (runPages oracle retry pages k res).2.2 =
      ((pageEnds oracle retry pages k res).filter
        fun pe => pe.2 != PageEnd.accepted).map Prod.fst ∧
    List.Sublist (fallsOf (runPages oracle retry pages k res).2.2)
      (pages.map Message.page) ∧
    ((∀ pe ∈ pageEnds oracle retry pages k res, pe.2 = PageEnd.accepted) →
      fallsOf (runPages oracle retry pages k res).2.2 = []) := by
  refine ⟨runPages_falls_eq oracle retry pages k res, ?_, ?_⟩
  · rw [runPages_falls_eq oracle retry pages k res]
    have hsub : List.Sublist
        ((pageEnds oracle retry pages k res).filter fun pe => pe.2 != PageEnd.accepted)
        (pageEnds oracle retry pages k res) := List.filter_sublist _
    have := hsub.map Prod.fst
    rwa [pageEnds_map_fst oracle retry pages k res] at this
  · intro hall
    rw [runPages_falls_eq oracle retry pages k res]
    have hnil : (pageEnds oracle retry pages k res).filter
        (fun pe => pe.2 != PageEnd.accepted) = [] := by
      rw [List.filter_eq_nil]
      intro pe hpe
      simp [hall pe hpe]
    rw [hnil, List.map_nil]

/-- Closed witness instantiating `fallback_only_failed_pages`: with a
send function that always returns 200 every page is accepted and the
fallback list is empty. -/
theorem fallback_only_failed_pages_witness :
    fallsOf (runPages (fun _ => Except.ok (Res.int 200)) 2
      [⟨1, "a".toList, "", none⟩, ⟨2, "b".toList, "", none⟩] 0 (Res.int 0)).2.2 = [] :=
  (fallback_only_failed_pages (fun _ => Except.ok (Res.int 200)) 2
    [⟨1, "a".toList, "", none⟩, ⟨2, "b".toList, "", none⟩] 0 (Res.int 0)).2.2
    (by decide)

/-- C10: the value returned by `__send_message_pagination` is the result
of the last send invocation that completed without raising, starting from
the initial `res = 0`; in particular, if every invocation raises the
call returns the integer 0, and a returned 200 does not imply that every
page was accepted (with `oracleEx`, page 1 is escalated to fallback yet
the overall result is 200). -/
theorem pagination_result_last_ok (oracle : SendOracle) (retry maxMsgSize : Nat)
    (message : List Char) (amend : Option String) (emergencyMsg : String)
    (pages : List Message)
    (h : splitMsg maxMsgSize message amend emergencyMsg = Except.ok pages) :
    (sendMessagePagination oracle retry maxMsgSize message amend emergencyMsg).1 =
      Except.ok (lastOkFrom (Res.int 0)
        (sendMessagePagination oracle retry maxMsgSize message amend emergencyMsg).2) ∧
    ((∀ j, oracle j = Except.error ()) →
      (sendMessagePagination oracle retry maxMsgSize message amend emergencyMsg).1 =
        Except.ok (Res.int 0)) ∧
    ((sendMessagePagination oracleEx 1 30 "abcde".toList none "").1 =
        Except.ok (Res.int 200) ∧
      fallsOf (sendMessagePagination oracleEx 1 30 "abcde".toList none "").2 = [1]) := by
  refine ⟨?_, ?_, ?_, ?_⟩
  · simp only [sendMessagePagination, h]
    exact congrArg Except.ok (runPages_res_eq_lastOkFrom oracle retry pages 0 (Res.int 0))
  · intro hall
    simp only [sendMessagePagination, h]
    rw [runPages_all_raise oracle retry hall pages 0 (Res.int 0)]
  · decide
  · decide

/-- Closed witness instantiating `pagination_result_last_ok` at a
concrete input with an always-raising send function. -/
theorem pagination_result_last_ok_witness :
    (sendMessagePagination (fun _ => Except.error ()) 2 30 "abcde".toList none "").1 =
      Except.ok (lastOkFrom (Res.int 0)
        (sendMessagePagination (fun _ => Except.error ()) 2 30 "abcde".toList none "").2) ∧
    (sendMessagePagination (fun _ => Except.error ()) 2 30 "abcde".toList none "").1 =
      Except.ok (Res.int 0) := by
  have h := pagination_result_last_ok (fun _ => Except.error ()) 2 30 "abcde".toList none ""
    [⟨1, "ab".toList, "", none⟩, ⟨2, "cde".toList, "", none⟩] (by decide)
  exact ⟨h.1, h.2.1 (fun _ => rfl)⟩

theorem postLoop_const_false_length (statusOracle : Nat → Int) (text : List Char) :
    ∀ (n i : Nat), (postLoop intEqStr200 statusOracle text n i).length = n := by
  intro n
  induction n with
  | zero => intro i; rfl
  | succ n' ih => intro i; simp [postLoop, intEqStr200, ih]

/-- C7 (code bug): in `utils.send_message` the break condition compares
the integer status code with the string `'200'`, which is never true, so
the loop posts all `retrying` times even when every attempt returns
HTTP 200 — it never stops at the first 200, for any status sequence.
`__send_emergency_message` compares with the integer 200 and does stop
at the first 200 (a single post when the first attempt returns 200).
Both always post the page text together with the rendered amend payload,
both are bounded by `retrying` posts, and exhaustion is silent (the loop
returns normally). -/
theorem fallback_send_loop_eval :
    (∀ statusOracle : Nat → Int, ∀ retrying : Nat,
      (sendMessageUtil statusOracle "body".toList "None" retrying).length = retrying) ∧
    (sendMessageUtil (fun _ => 200) "body".toList "None" 5).length = 5 ∧
    (sendEmergencyMessage (fun _ => 200) "body".toList "None" 5).length = 1 ∧
    sendMessageUtil (fun _ => 200) "body".toList "None" 5 =
      List.replicate 5 (fallbackText "body".toList "None") ∧
    "body".toList <:+: fallbackText "body".toList "None" ∧
    "None".toList <:+: fallbackText "body".toList "None" := by
  refine ⟨?_, ?_, ?_, ?_, ?_, ?_⟩
  · intro statusOracle retrying
    exact postLoop_const_false_length statusOracle _ retrying 0
  · decide
  · decide
  · decide
  · exact ⟨"message: ".toList, " amend: None".toList, by decide⟩
  · exact ⟨"message: body amend: ".toList, [], by decide⟩

theorem string_append_ne_self (s t : String) (h : t.length ≠ 0) : s ++ t ≠ s := by
  intro hc
  have hl := congrArg String.length hc
  rw [String.length_append] at hl
  omega

theorem find?_filter_ne (l : List (String × RVal × Option Nat)) (k k' : String)
    (h : k' ≠ k) :
    ((l.filter fun e => e.1 != k).find? fun e => e.1 == k') =
      (l.find? fun e => e.1 == k') := by
  induction l with
  | nil => rfl
  | cons e l ih =>
    by_cases he : e.1 = k
    · have h2 : (k == k') = false := beq_eq_false_iff_ne.mpr (Ne.symm h)
      simp [List.filter_cons, he, List.find?_cons, h2, ih]
    · have h1 : (e.1 != k) = true := by simp [he]
      cases hbe : (e.1 == k') <;>
        simp [List.filter_cons, h1, List.find?_cons, hbe, ih]

theorem Redis.getEntry_removeKey_ne (r : Redis) (now : Nat) (k k' : String)
    (h : k' ≠ k) :
    (r.removeKey k).getEntry now k' = r.getEntry now k' := by
  simp only [Redis.getEntry, Redis.removeKey]
  rw [find?_filter_ne r.entries k k' h]

theorem Redis.getEntry_cons_ne (l : List (String × RVal × Option Nat))
    (e : String × RVal × Option Nat) (now : Nat) (k' : String) (h : k' ≠ e.1) :
    Redis.getEntry ⟨e :: l⟩ now k' = Redis.getEntry ⟨l⟩ now k' := by
  simp only [Redis.getEntry, List.find?_cons]
  rw [beq_eq_false_iff_ne.mpr (Ne.symm h)]

theorem Redis.getEntry_incr_ne (r : Redis) (now now' : Nat) (k k' : String)
    (h : k' ≠ k) :
    ((r.incr now k).1).getEntry now' k' = r.getEntry now' k' := by
  have hrm := Redis.getEntry_removeKey_ne r now' k k' h
  unfold Redis.incr
  cases hx : r.getEntry now k with
  | none => rw [Redis.getEntry_cons_ne _ _ _ _ h, hrm]
  | some vt =>
    rcases vt with ⟨v, t⟩
    cases v <;> simp only [] <;> rw [Redis.getEntry_cons_ne _ _ _ _ h, hrm]

theorem Redis.getEntry_set_self (r : Redis) (now : Nat) (k : String) (v : RVal) :
    (r.set k v).getEntry now k = some (v, none) := by
  simp [Redis.set, Redis.getEntry, List.find?_cons, entryLive]

theorem Redis.getEntry_setEx_self (r : Redis) (now now' : Nat) (k : String)
    (v : RVal) (ex : Nat) :
    (r.setEx now k v ex).getEntry now' k =
      if now' < now + ex then some (v, some (now + ex)) else none := by
  simp only [Redis.setEx, Redis.getEntry, List.find?_cons, beq_self_eq_true,
    entryLive]
  by_cases hlt : now' < now + ex <;> simp [hlt]

theorem Redis.getEntry_set_ne (r : Redis) (now : Nat) (k k' : String) (v : RVal)
    (h : k' ≠ k) :
    (r.set k v).getEntry now k' = r.getEntry now k' := by
  show Redis.getEntry ⟨(k, v, none) :: (r.removeKey k).entries⟩ now k' = _
  rw [Redis.getEntry_cons_ne _ _ _ _ h]
  exact Redis.getEntry_removeKey_ne r now k k' h

theorem Redis.getEntry_setEx_ne (r : Redis) (now now' : Nat) (k k' : String)
    (v : RVal) (ex : Nat) (h : k' ≠ k) :
    (r.setEx now k v ex).getEntry now' k' = r.getEntry now' k' := by
  show Redis.getEntry ⟨(k, v, some (now + ex)) :: (r.removeKey k).entries⟩ now' k' = _
  rw [Redis.getEntry_cons_ne _ _ _ _ h]
  exact Redis.getEntry_removeKey_ne r now' k k' h

theorem Redis.deleteKeys_matching_empty (r : Redis) (now : Nat) (p : String) :
    (r.deleteKeys (r.keysMatching now p)).keysMatching now p = [] := by
  simp only [Redis.deleteKeys, Redis.keysMatching]
  rw [List.filter_filter, List.map_eq_nil_iff, List.filter_eq_nil_iff]
  intro e he hcomb
  rcases (Bool.and_eq_true _ _).mp hcomb with ⟨hsw, hnc⟩
  have hmem : e.1 ∈ (r.entries.filter
      (fun e => strStarts e.1 p && entryLive now e.2.2)).map (fun e => e.1) :=
    List.mem_map_of_mem _ (List.mem_filter.mpr ⟨he, hsw⟩)
  rw [Bool.not_eq_true'] at hnc
  have hc : (List.map (fun e => e.1)
      (List.filter (fun e => strStarts e.1 p && entryLive now e.2.2)
        r.entries)).contains e.1 = true :=
    List.elem_iff.mpr hmem
  rw [hnc] at hc
  exact Bool.false_ne_true hc

/-- Closed witness instantiating `splitMsg_correct` at a concrete input. -/
theorem splitMsg_correct_witness :
    ∃ pages : List Message,
      splitMsg 30 "hello world".toList none "" = .ok pages ∧
      (pages.map Message.content).flatten = "hello world".toList ∧
      (∀ m ∈ pages, m.content.length ≤ 30) ∧
      (∀ (i : Nat) (hi : i < pages.length), (pages.get ⟨i, hi⟩).page = i + 1) ∧
      pages.head? = some ⟨1, "hello world".toList.take (30 - (mandatoryMsg none "").length),
        "", none⟩ ∧
      (∀ m ∈ pages.tail, m.emergency = "" ∧ m.amend = none) :=
  splitMsg_correct 30 "hello world".toList none "" (by decide)

/-- C8 counterexample: with a configured setting of `count_limit = 1` and
an empty counter store, the claim's semantics (increment, then admit when
the live count reaches the limit) would admit the very first call, but
`check_condition_send_message` performs no increment — it returns false,
forwards nothing and leaves the store unchanged. -/
theorem threshold_gate_counterexample :
    getThresholdSetting (fun s => s) 0 c8OneStore "m" = some (1, 10) ∧
    checkConditionSendMessage (fun s => s) 0 ⟨[]⟩ c8OneStore "m" 7 =
      (false, ⟨[]⟩, none) := by
  constructor
  · rfl
  · rfl

/-- C8 as amended: `check_condition_send_message` itself performs no
increment.  Unconfigured: it forwards the unmodified message and returns
true on every call.  Configured with `count_limit = n`: it admits —
appending the live count, forwarding and deleting the counted keys —
exactly when the live count of keys under the content-derived prefix in
store 1 reaches `n`, and suppresses (false, nothing forwarded, store
unchanged) otherwise; after an admit no live key under the prefix
remains (the window resets).  The increment is the separate operation
`set_message_data`, which writes one fresh expiring entry (value 1,
expiry the configured window) to store 2 and fails when no setting is
configured. -/
theorem threshold_gate_behavior (hash : String → String) (now : Nat)
    (store1 store2 : Redis) (message : String) (receiverId : Int) (uniqueId : String) :
    (getThresholdSetting hash now store2 message = none →
      checkConditionSendMessage hash now store1 store2 message receiverId =
        (true, store1, some message)) ∧
    (∀ n t, getThresholdSetting hash now store2 message = some (n, t) →
      checkConditionSendMessage hash now store1 store2 message receiverId =
        (if n ≤ (store1.keysMatching now (msgAlertKey hash message receiverId ++ "-")).length
         then (true,
           store1.deleteKeys
             (store1.keysMatching now (msgAlertKey hash message receiverId ++ "-")),
           some (message ++ "\n count: " ++
             toString (store1.keysMatching now
               (msgAlertKey hash message receiverId ++ "-")).length))
         else (false, store1, none))) ∧
    ((store1.deleteKeys
        (store1.keysMatching now (msgAlertKey hash message receiverId ++ "-"))).keysMatching
        now (msgAlertKey hash message receiverId ++ "-") = []) ∧
    (∀ n t, getThresholdSetting hash now store2 message = some (n, t) →
      setMessageData hash now store2 message receiverId uniqueId =
        some (store2.setEx now (msgAlertKey hash message receiverId ++ "-" ++ uniqueId)
          (RVal.int 1) t)) ∧
    (getThresholdSetting hash now store2 message = none →
      setMessageData hash now store2 message receiverId uniqueId = none) := by
  refine ⟨?_, ?_, ?_, ?_, ?_⟩
  · intro hset
    simp only [checkConditionSendMessage, hset]
  · intro n t hset
    simp only [checkConditionSendMessage, hset]
  · exact Redis.deleteKeys_matching_empty store1 now (msgAlertKey hash message receiverId ++ "-")
  · intro n t hset
    simp only [setMessageData, hset]
  · intro hset
    simp only [setMessageData, hset]

/-- Closed witness instantiating `threshold_gate_behavior` at concrete
inputs: an unconfigured store admits and forwards; a configured store
with limit 2 and two live counter keys admits with the count appended and
clears the window; `set_message_data` writes the expiring entry when
configured and fails when not. -/
theorem threshold_gate_behavior_witness :
    checkConditionSendMessage (fun s => s) 0 ⟨[]⟩ ⟨[]⟩ "m" 7 =
      (true, ⟨[]⟩, some "m") ∧
    checkConditionSendMessage (fun s => s) 0 c8Store1 c8SettingStore "m" 7 =
      (true, ⟨[]⟩, some "m\n count: 2") ∧
    (c8Store1.deleteKeys (c8Store1.keysMatching 0 "m_7-")).keysMatching 0 "m_7-" = [] ∧
    setMessageData (fun s => s) 0 c8SettingStore "m" 7 "u9" =
      some (c8SettingStore.setEx 0 "m_7-u9" (RVal.int 1) 10) ∧
    setMessageData (fun s => s) 0 ⟨[]⟩ "m" 7 "u9" = none := by
  refine ⟨?_, ?_, ?_, ?_, ?_⟩
  · exact (threshold_gate_behavior (fun s => s) 0 ⟨[]⟩ ⟨[]⟩ "m" 7 "u9").1 rfl
  · exact ((threshold_gate_behavior (fun s => s) 0 c8Store1 c8SettingStore "m" 7 "u9").2.1
      2 10 rfl).trans (by decide)
  · exact ((threshold_gate_behavior (fun s => s) 0 c8Store1 c8SettingStore "m" 7 "u9").2.2.1)
  · exact ((threshold_gate_behavior (fun s => s) 0 c8SettingStore c8SettingStore "m" 7 "u9").2.2.2.1
      2 10 rfl).trans (by decide)
  · exact (threshold_gate_behavior (fun s => s) 0 ⟨[]⟩ ⟨[]⟩ "m" 7 "u9").2.2.2.2 rfl

theorem sendAlert_suppress (hash : String → String) (delay : Nat) (text : String)
    (receiverId : Int) (now : Nat) (store : Redis)
    (hmark : (store.get now (alertKeyOf hash text receiverId ++ "-expire")).isSome) :
    sendAlertUtil hash now delay store text receiverId =
      ((store.incr now (alertKeyOf hash text receiverId)).1, none) := by
  have hne : alertKeyOf hash text receiverId ++ "-expire" ≠
      alertKeyOf hash text receiverId :=
    string_append_ne_self _ _ (by decide)
  simp only [sendAlertUtil]
  have hget : ((store.incr now (alertKeyOf hash text receiverId)).1).get now
      (alertKeyOf hash text receiverId ++ "-expire") =
      store.get now (alertKeyOf hash text receiverId ++ "-expire") := by
    unfold Redis.get
    rw [Redis.getEntry_incr_ne _ _ _ _ _ hne]
  rw [hget]
  cases hmv : store.get now (alertKeyOf hash text receiverId ++ "-expire") with
  | none => rw [hmv] at hmark; simp at hmark
  | some v => simp

theorem sendAlert_forward (hash : String → String) (delay : Nat) (text : String)
    (receiverId : Int) (now : Nat) (store : Redis) (hdelay : 0 < delay)
    (hmark : store.get now (alertKeyOf hash text receiverId ++ "-expire") = none) :
    (sendAlertUtil hash now delay store text receiverId).2 =
      some (text ++ "\n count: " ++
        toString (store.incr now (alertKeyOf hash text receiverId)).2) ∧
    (sendAlertUtil hash now delay store text receiverId).1.getEntry now
      (alertKeyOf hash text receiverId ++ "-expire") =
      some (RVal.str "true", some (now + delay)) ∧
    (sendAlertUtil hash now delay store text receiverId).1.get now
      (alertKeyOf hash text receiverId) = some (RVal.int 0) := by
  have hne : alertKeyOf hash text receiverId ++ "-expire" ≠
      alertKeyOf hash text receiverId :=
    string_append_ne_self _ _ (by decide)
  simp only [sendAlertUtil]
  have hget : ((store.incr now (alertKeyOf hash text receiverId)).1).get now
      (alertKeyOf hash text receiverId ++ "-expire") =
      store.get now (alertKeyOf hash text receiverId ++ "-expire") := by
    unfold Redis.get
    rw [Redis.getEntry_incr_ne _ _ _ _ _ hne]
  rw [hget, hmark]
  simp only [Option.isNone_none, if_true, ite_true]
  refine ⟨trivial, ?_, ?_⟩
  · rw [Redis.getEntry_set_ne _ _ _ _ _ hne, Redis.getEntry_setEx_self,
      if_pos (by omega)]
  · unfold Redis.get
    rw [Redis.getEntry_set_self]
    rfl

/-- C9: `utils.send_alert` increments the live counter for the key
derived from (text, receiver) on every call.  When no `-expire` marker is
live it forwards the text annotated with the incremented count, sets the
marker with expiry `alert_delay` and resets the counter to 0; when the
marker is live it suppresses silently while the increment still happens.
Consequently, starting from an empty store, a first call forwards with
count 1, a second call within `alert_delay` is suppressed, and a third
call after the marker expires forwards with the accumulated count 2. -/
theorem alert_dedup_behavior (hash : String → String) (delay : Nat)
    (text : String) (receiverId : Int) (hdelay : 0 < delay) :
    (∀ (now : Nat) (store : Redis),
      (store.get now (alertKeyOf hash text receiverId ++ "-expire")).isSome →
      sendAlertUtil hash now delay store text receiverId =
        ((store.incr now (alertKeyOf hash text receiverId)).1, none)) ∧
    (∀ (now : Nat) (store : Redis),
      store.get now (alertKeyOf hash text receiverId ++ "-expire") = none →
      (sendAlertUtil hash now delay store text receiverId).2 =
        some (text ++ "\n count: " ++
          toString (store.incr now (alertKeyOf hash text receiverId)).2) ∧
      (sendAlertUtil hash now delay store text receiverId).1.getEntry now
        (alertKeyOf hash text receiverId ++ "-expire") =
        some (RVal.str "true", some (now + delay)) ∧
      (sendAlertUtil hash now delay store text receiverId).1.get now
        (alertKeyOf hash text receiverId) = some (RVal.int 0)) ∧
    (∀ t1 t2 t3 : Nat, t2 < t1 + delay → t1 + delay ≤ t3 →
      (sendAlertUtil hash t1 delay ⟨[]⟩ text receiverId).2 =
        some (text ++ "\n count: 1") ∧
      (sendAlertUtil hash t2 delay
        (sendAlertUtil hash t1 delay ⟨[]⟩ text receiverId).1 text receiverId).2 =
        none ∧
      (sendAlertUtil hash t3 delay
        (sendAlertUtil hash t2 delay
          (sendAlertUtil hash t1 delay ⟨[]⟩ text receiverId).1 text
          receiverId).1 text receiverId).2 = some (text ++ "\n count: 2")) := by
  refine ⟨fun now store h => sendAlert_suppress hash delay text receiverId now store h,
    fun now store h => sendAlert_forward hash delay text receiverId now store hdelay h,
    ?_⟩
  intro t1 t2 t3 h2 h3
  set aKey := alertKeyOf hash text receiverId with haK
  have hne : aKey ++ "-expire" ≠ aKey := string_append_ne_self _ _ (by decide)
  have hb1 : (aKey == aKey ++ "-expire") = false :=
    beq_eq_false_iff_ne.mpr (Ne.symm hne)
  have hb2 : (aKey ++ "-expire" == aKey) = false := beq_eq_false_iff_ne.mpr hne
  have hb3 : (aKey != aKey ++ "-expire") = true := by simp [bne, hb1]
  have hb4 : (aKey ++ "-expire" != aKey) = true := by simp [bne, hb2]
  have hcall1 : sendAlertUtil hash t1 delay ⟨[]⟩ text receiverId =
      (⟨[(aKey, RVal.int 0, none), (aKey ++ "-expire", RVal.str "true",
          some (t1 + delay))]⟩,
        some (text ++ "\n count: " ++ toString (1 : Int))) := by
    simp [sendAlertUtil, Redis.incr, Redis.getEntry, Redis.get, Redis.set,
      Redis.setEx, Redis.removeKey, List.find?, List.filter, entryLive,
      hb1, hb2, hb3, hb4, ← haK]
  have hcall2 : sendAlertUtil hash t2 delay
      (⟨[(aKey, RVal.int 0, none), (aKey ++ "-expire", RVal.str "true",
          some (t1 + delay))]⟩ : Redis) text receiverId =
      (⟨[(aKey, RVal.int 1, none), (aKey ++ "-expire", RVal.str "true",
          some (t1 + delay))]⟩, none) := by
    simp [sendAlertUtil, Redis.incr, Redis.getEntry, Redis.get, Redis.set,
      Redis.setEx, Redis.removeKey, List.find?, List.filter, entryLive,
      hb1, hb2, hb3, hb4, ← haK, h2]
  have hn3 : ¬(t3 < t1 + delay) := by omega
  have hcall3 : (sendAlertUtil hash t3 delay
      (⟨[(aKey, RVal.int 1, none), (aKey ++ "-expire", RVal.str "true",
          some (t1 + delay))]⟩ : Redis) text receiverId).2 =
      some (text ++ "\n count: " ++ toString (2 : Int)) := by
    simp [sendAlertUtil, Redis.incr, Redis.getEntry, Redis.get, Redis.set,
      Redis.setEx, Redis.removeKey, List.find?, List.filter, entryLive,
      hb1, hb2, hb3, hb4, ← haK, hn3]
  have hstr : ∀ n : Int, text ++ "\n count: " ++ toString n =
      text ++ ("\n count: " ++ toString n) := by
    intro n
    rw [String.append_assoc]
  refine ⟨?_, ?_, ?_⟩
  · rw [hcall1, hstr]
    have : ("\n count: " ++ toString (1 : Int)) = "\n count: 1" := by decide
    rw [this]
  · rw [hcall1]
    simp only []
    rw [hcall2]
  · rw [hcall1]
    simp only []
    rw [hcall2]
    simp only []
    rw [hcall3, hstr]
    have : ("\n count: " ++ toString (2 : Int)) = "\n count: 2" := by decide
    rw [this]

/-- Closed witness instantiating `alert_dedup_behavior` at concrete
inputs: a live marker suppresses while still incrementing; an empty
store forwards with the count, sets the marker and resets the counter;
and the three-call scenario with delay 10 at times 0, 5 and 10. -/
theorem alert_dedup_behavior_witness :
    sendAlertUtil (fun s => s) 0 10
        ⟨[("boom-3-expire", RVal.str "true", some 5)]⟩ "boom" 3 =
      ((Redis.incr ⟨[("boom-3-expire", RVal.str "true", some 5)]⟩ 0
          (alertKeyOf (fun s => s) "boom" 3)).1, none) ∧
    ((sendAlertUtil (fun s => s) 0 10 ⟨[]⟩ "boom" 3).2 =
      some ("boom" ++ "\n count: " ++
        toString ((Redis.incr ⟨[]⟩ 0 (alertKeyOf (fun s => s) "boom" 3)).2)) ∧
      (sendAlertUtil (fun s => s) 0 10 ⟨[]⟩ "boom" 3).1.getEntry 0
        (alertKeyOf (fun s => s) "boom" 3 ++ "-expire") =
        some (RVal.str "true", some 10) ∧
      (sendAlertUtil (fun s => s) 0 10 ⟨[]⟩ "boom" 3).1.get 0
        (alertKeyOf (fun s => s) "boom" 3) = some (RVal.int 0)) ∧
    (sendAlertUtil (fun s => s) 0 10 ⟨[]⟩ "boom" 3).2 =
      some ("boom" ++ "\n count: 1") ∧
    (sendAlertUtil (fun s => s) 5 10
      (sendAlertUtil (fun s => s) 0 10 ⟨[]⟩ "boom" 3).1 "boom" 3).2 = none ∧
    (sendAlertUtil (fun s => s) 10 10
      (sendAlertUtil (fun s => s) 5 10
        (sendAlertUtil (fun s => s) 0 10 ⟨[]⟩ "boom" 3).1 "boom" 3).1
      "boom" 3).2 = some ("boom" ++ "\n count: 2") := by
  have hsc := (alert_dedup_behavior (fun s => s) 10 "boom" 3 (by omega)).2.2 0 5 10
    (by omega) (by omega)
  refine ⟨?_, ?_, hsc.1, hsc.2.1, hsc.2.2⟩
  · exact (alert_dedup_behavior (fun s => s) 10 "boom" 3 (by omega)).1 0
      ⟨[("boom-3-expire", RVal.str "true", some 5)]⟩ (by decide)
  · exact (alert_dedup_behavior (fun s => s) 10 "boom" 3 (by omega)).2.1 0 ⟨[]⟩ rfl

end Notifier
